import Mathlib

/-!
# Verification of the wheel-of-fortune game-state reducer

Shallow embedding of the repository's pure core: the phrase normalizer
(`normalizePhrase`), the persistence migration (`migrateToV1`) and the
game-state reducer operations (player/set/word CRUD, game lifecycle,
letter guessing), together with proofs of the specified properties.

Strings are modelled as Lean `String`/`List Char`; JavaScript's
`toLowerCase` is modelled on the ASCII range (the repository's matching
contract is explicitly ASCII-letter based), and JavaScript whitespace
(`\s`, `trim`) is modelled by the ECMAScript white-space/line-terminator
code-point set.
-/

namespace Wof

/-- The space character, written via its code point to keep character
literals simple. -/
def spaceChar : Char := Char.ofNat 32

/-- ECMAScript white space and line terminators: the character class `\s`
and the set removed by `String.prototype.trim`. -/
def jsIsWs (c : Char) : Bool :=
  decide ((9 ≤ c.toNat ∧ c.toNat ≤ 13) ∨ c.toNat = 32 ∨ c.toNat = 160 ∨
    c.toNat = 5760 ∨ (8192 ≤ c.toNat ∧ c.toNat ≤ 8202) ∨ c.toNat = 8232 ∨
    c.toNat = 8233 ∨ c.toNat = 8239 ∨ c.toNat = 8287 ∨ c.toNat = 12288 ∨
    c.toNat = 65279)

/-- Lower-case ASCII letter or ASCII digit: the characters kept by the
regex class `[a-z0-9]`. -/
def isLowerAlnum (c : Char) : Bool :=
  decide ((97 ≤ c.toNat ∧ c.toNat ≤ 122) ∨ (48 ≤ c.toNat ∧ c.toNat ≤ 57))

/-- ASCII model of JavaScript `toLowerCase` on a single character. -/
def jsLowerChar (c : Char) : Char :=
  if 65 ≤ c.toNat ∧ c.toNat ≤ 90 then Char.ofNat (c.toNat + 32) else c

/-- The replacement `/[’']/g → "'"`: curly and straight apostrophes are
unified to the straight apostrophe (code point 39). -/
def unifyApos (c : Char) : Char :=
  if c.toNat = 8217 ∨ c.toNat = 39 then Char.ofNat 39 else c

/-- Characters kept by the replacement `/[^a-z0-9\s]/g → ""`. -/
def keepChar (c : Char) : Bool := isLowerAlnum c || jsIsWs c

/-- The replacement `/\s+/g → " "`: each maximal run of whitespace becomes
a single space.  The flag records whether we are inside a run whose space
has already been emitted. -/
def collapseAux : Bool → List Char → List Char
  | _, [] => []
  | b, c :: rest =>
    if jsIsWs c then
      if b then collapseAux true rest
      else spaceChar :: collapseAux true rest
    else c :: collapseAux false rest

/-- Collapse whitespace runs to single spaces (the regex `/\s+/g`). -/
def collapseWs (l : List Char) : List Char := collapseAux false l

/-- JavaScript `String.prototype.trim`: drop whitespace from both ends. -/
def jsTrimList (l : List Char) : List Char :=
  List.rdropWhile jsIsWs (l.dropWhile jsIsWs)

/-- `normalizePhrase` on character lists: lowercase, trim, unify
apostrophes, strip everything outside `[a-z0-9\s]`, collapse whitespace —
in exactly the source's order. -/
def normList (l : List Char) : List Char :=
  collapseWs (List.filter keepChar ((jsTrimList (l.map jsLowerChar)).map unifyApos))

/-- `normalizePhrase` from the source: forgiving canonicalization used for
phrase comparison. -/
def normalizePhrase (s : String) : String := String.mk (normList s.data)

/-- JavaScript `trim` on a `String`. -/
def jsTrimStr (s : String) : String := String.mk (jsTrimList s.data)

/-- `maskPhrase` from the source: hide letters and digits, keep the rest. -/
def maskPhrase (s : String) : String :=
  String.mk (s.data.map (fun c =>
    if decide ((65 ≤ c.toNat ∧ c.toNat ≤ 90) ∨ (97 ≤ c.toNat ∧ c.toNat ≤ 122) ∨
        (48 ≤ c.toNat ∧ c.toNat ≤ 57)) then Char.ofNat 9632 else c))

/-! ## Canonical-form machinery for the normalizer -/

/-- A character that can appear in a normalizer output: lower-case
alphanumeric or a plain space. -/
def okChar (c : Char) : Bool := isLowerAlnum c || c.toNat == 32

/-- No two adjacent spaces. -/
def NoTwoSpaces (l : List Char) : Prop :=
  List.Chain' (fun a b => ¬(a.toNat = 32 ∧ b.toNat = 32)) l

/-- Canonical form: only `[a-z0-9 ]` characters, no two adjacent spaces. -/
def CanonP (l : List Char) : Prop :=
  (∀ c ∈ l, okChar c = true) ∧ NoTwoSpaces l

theorem okChar_cases {c : Char} (h : okChar c = true) :
    isLowerAlnum c = true ∨ c.toNat = 32 := by
  simp [okChar] at h
  rcases h with h | h
  · exact Or.inl h
  · exact Or.inr h

theorem isLowerAlnum_not_ws {c : Char} (h : isLowerAlnum c = true) :
    jsIsWs c = false := by
  simp [isLowerAlnum] at h
  simp [jsIsWs]
  omega

theorem ws_of_toNat_32 {c : Char} (h : c.toNat = 32) : jsIsWs c = true := by
  simp [jsIsWs]
  omega

theorem okChar_ws_eq_space {c : Char} (hok : okChar c = true)
    (hws : jsIsWs c = true) : c.toNat = 32 := by
  rcases okChar_cases hok with h | h
  · rw [isLowerAlnum_not_ws h] at hws
    exact absurd hws (by simp)
  · exact h

theorem keepChar_of_okChar {c : Char} (h : okChar c = true) :
    keepChar c = true := by
  rcases okChar_cases h with h1 | h1
  · simp [keepChar, h1]
  · simp [keepChar, ws_of_toNat_32 h1]

theorem jsLowerChar_of_okChar {c : Char} (h : okChar c = true) :
    jsLowerChar c = c := by
  have h2 : ¬(65 ≤ c.toNat ∧ c.toNat ≤ 90) := by
    rcases okChar_cases h with h1 | h1
    · simp [isLowerAlnum] at h1
      omega
    · omega
  simp [jsLowerChar, h2]

theorem unifyApos_of_okChar {c : Char} (h : okChar c = true) :
    unifyApos c = c := by
  have h2 : ¬(c.toNat = 8217 ∨ c.toNat = 39) := by
    rcases okChar_cases h with h1 | h1
    · simp [isLowerAlnum] at h1
      omega
    · omega
  simp [unifyApos, h2]

theorem spaceChar_toNat : spaceChar.toNat = 32 := by decide

/-- A character is determined by its code point. -/
theorem charEq_of_toNat_eq {c d : Char} (h : c.toNat = d.toNat) : c = d := by
  apply Char.ext
  exact UInt32.toNat.inj h

theorem okChar_spaceChar : okChar spaceChar = true := by decide

/-- Every character emitted by `collapseAux` from a `keepChar` input is
canonical, no two adjacent spaces appear, and in run-continuation mode the
head of the output is never a space. -/
theorem collapseAux_canon :
    ∀ (l : List Char) (b : Bool), (∀ c ∈ l, keepChar c = true) →
      (∀ c ∈ collapseAux b l, okChar c = true) ∧
      NoTwoSpaces (collapseAux b l) ∧
      (b = true → ∀ d, (collapseAux b l).head? = some d → d.toNat ≠ 32)
  | [], b, _ => by
    refine ⟨by simp [collapseAux], by simp [collapseAux, NoTwoSpaces], ?_⟩
    intro _ d hd
    simp [collapseAux] at hd
  | c :: rest, b, hmem => by
    have hc : keepChar c = true := hmem c (by simp)
    have hrest : ∀ x ∈ rest, keepChar x = true := fun x hx => hmem x (by simp [hx])
    by_cases hws : jsIsWs c = true
    · have ih := collapseAux_canon rest true hrest
      cases b with
      | true =>
        simpa [collapseAux, hws] using ih
      | false =>
        have hout : collapseAux false (c :: rest) =
            spaceChar :: collapseAux true rest := by
          simp [collapseAux, hws]
        rw [hout]
        refine ⟨?_, ?_, by simp⟩
        · intro x hx
          rcases List.mem_cons.mp hx with h | h
          · rw [h]; exact okChar_spaceChar
          · exact ih.1 x h
        · rw [NoTwoSpaces, List.chain'_cons']
          refine ⟨?_, ih.2.1⟩
          intro y hy
          intro hcon
          exact ih.2.2 rfl y hy hcon.2
    · have hws' : jsIsWs c = false := by
        cases h : jsIsWs c
        · rfl
        · exact absurd h hws
      have ih := collapseAux_canon rest false hrest
      have hout : collapseAux b (c :: rest) = c :: collapseAux false rest := by
        cases b <;> simp [collapseAux, hws']
      rw [hout]
      have hcok : okChar c = true := by
        have : isLowerAlnum c = true := by
          rcases (by simpa [keepChar] using hc : isLowerAlnum c = true ∨ jsIsWs c = true) with h | h
          · exact h
          · rw [hws'] at h; exact absurd h (by simp)
        simp [okChar, this]
      have hcns : c.toNat ≠ 32 := by
        intro h32
        rw [ws_of_toNat_32 h32] at hws'
        exact absurd hws' (by simp)
      refine ⟨?_, ?_, ?_⟩
      · intro x hx
        rcases List.mem_cons.mp hx with h | h
        · rw [h]; exact hcok
        · exact ih.1 x h
      · rw [NoTwoSpaces, List.chain'_cons']
        refine ⟨?_, ih.2.1⟩
        intro y _
        intro hcon
        exact hcns hcon.1
      · intro _ d hd
        simp at hd
        rw [← hd]
        exact hcns

/-- On canonical input, whitespace collapsing is the identity. -/
theorem collapseAux_id :
    ∀ l : List Char, CanonP l →
      collapseAux false l = l ∧
      ((∀ d, l.head? = some d → d.toNat ≠ 32) → collapseAux true l = l)
  | [], _ => by simp [collapseAux]
  | c :: rest, hcanon => by
    have hok : okChar c = true := hcanon.1 c (by simp)
    have hrest : CanonP rest := by
      refine ⟨fun x hx => hcanon.1 x (by simp [hx]), ?_⟩
      have := hcanon.2
      rw [NoTwoSpaces, List.chain'_cons'] at this
      exact this.2
    have ih := collapseAux_id rest hrest
    by_cases hws : jsIsWs c = true
    · have hc32 : c.toNat = 32 := okChar_ws_eq_space hok hws
      have hheadr : ∀ d, rest.head? = some d → d.toNat ≠ 32 := by
        intro d hd
        have := hcanon.2
        rw [NoTwoSpaces, List.chain'_cons'] at this
        have h2 := this.1 d hd
        intro hd32
        exact h2 ⟨hc32, hd32⟩
      have hcsp : c = spaceChar := by
        have h1 : c.toNat = spaceChar.toNat := by rw [hc32, spaceChar_toNat]
        exact charEq_of_toNat_eq h1
      constructor
      · rw [show collapseAux false (c :: rest) =
            spaceChar :: collapseAux true rest by simp [collapseAux, hws]]
        rw [ih.2 hheadr, hcsp]
      · intro hhead
        exact absurd hc32 (hhead c (by simp))
    · have hws' : jsIsWs c = false := by
        cases h : jsIsWs c
        · rfl
        · exact absurd h hws
      constructor
      · rw [show collapseAux false (c :: rest) = c :: collapseAux false rest by
          simp [collapseAux, hws']]
        rw [ih.1]
      · intro _
        rw [show collapseAux true (c :: rest) = c :: collapseAux false rest by
          simp [collapseAux, hws']]
        rw [ih.1]

/-- Canonical form is inherited by contiguous sublists. -/
theorem CanonP.of_contiguous {l l' : List Char} (h : CanonP l)
    (hinf : l' <:+: l) : CanonP l' :=
  ⟨fun c hc => h.1 c (hinf.subset hc), List.Chain'.infix h.2 hinf⟩

/-- `jsTrimList` only removes an outer layer: its result is a contiguous
sublist of the input. -/
theorem jsTrimList_contiguous (l : List Char) : jsTrimList l <:+: l := by
  have h1 : List.rdropWhile jsIsWs (l.dropWhile jsIsWs) <+: l.dropWhile jsIsWs :=
    List.rdropWhile_prefix jsIsWs _
  have h2 : l.dropWhile jsIsWs <:+ l := List.dropWhile_suffix _
  exact List.IsInfix.trans h1.isInfix h2.isInfix

/-- The output of the normalizer is canonical. -/
theorem normList_canon (l : List Char) : CanonP (normList l) := by
  have hmem : ∀ c ∈ List.filter keepChar
      ((jsTrimList (l.map jsLowerChar)).map unifyApos), keepChar c = true := by
    intro c hc
    exact List.of_mem_filter hc
  have h := collapseAux_canon
    (List.filter keepChar ((jsTrimList (l.map jsLowerChar)).map unifyApos))
    false hmem
  exact ⟨h.1, h.2.1⟩

/-- On canonical input, the normalizer reduces to a plain trim. -/
theorem normList_of_canon {l : List Char} (h : CanonP l) :
    normList l = jsTrimList l := by
  have hlower : l.map jsLowerChar = l := by
    rw [show l.map jsLowerChar = l.map id from
      List.map_congr_left (fun a ha => jsLowerChar_of_okChar (h.1 a ha))]
    exact List.map_id l
  have htc : CanonP (jsTrimList l) := h.of_contiguous (jsTrimList_contiguous l)
  have hapos : (jsTrimList l).map unifyApos = jsTrimList l := by
    rw [show (jsTrimList l).map unifyApos = (jsTrimList l).map id from
      List.map_congr_left (fun a ha => unifyApos_of_okChar (htc.1 a ha))]
    exact List.map_id _
  have hfil : List.filter keepChar (jsTrimList l) = jsTrimList l :=
    List.filter_eq_self.mpr (fun a ha => keepChar_of_okChar (htc.1 a ha))
  rw [normList, hlower, hapos, hfil]
  exact (collapseAux_id (jsTrimList l) htc).1

/-- C3 counterexample: the phrase normalizer is not idempotent.  On
`"! a"` the trim runs before punctuation stripping, so stripping the
leading `!` leaves a leading space that a second normalization removes:
`normalize "! a" = " a"` but `normalize " a" = "a"`. -/
theorem normalizePhrase_not_idempotent :
    normalizePhrase (normalizePhrase "! a") ≠ normalizePhrase "! a" := by
  decide

/-- C3 (amended): a second application of the normalizer only trims the
leading/trailing space that punctuation-stripping can expose:
`normalize (normalize p) = trim (normalize p)` for every string, so the
normalizer is idempotent exactly on inputs whose normal form is already
trimmed (in particular a third application changes nothing). -/
theorem normalizePhrase_normalizePhrase (p : String) :
    normalizePhrase (normalizePhrase p) = jsTrimStr (normalizePhrase p) := by
  show String.mk (normList (normList p.data)) = String.mk (jsTrimList (normList p.data))
  rw [normList_of_canon (normList_canon p.data)]

/-! ## Data model (from `state/types.ts` / the set-based variant of `App.tsx`) -/

/-- A player: name and signed score. -/
structure Player where
  id : String
  name : String
  score : Int
  createdAt : Int
deriving DecidableEq

/-- A named grouping of puzzle words. -/
structure QuestionSet where
  id : String
  name : String
  createdAt : Int
deriving DecidableEq

/-- A word/phrase entry, owned by a question set via `setId`, ordered
within its set by `order`. -/
structure WordEntry where
  id : String
  text : String
  theme : String
  setId : String
  order : Int
  createdAt : Int
deriving DecidableEq

/-- Per-game progress for one word. -/
structure PuzzleState where
  wordId : String
  revealedLetters : List String
  wrongLetters : List String
  solved : Bool
deriving DecidableEq

/-- The global mode gate. -/
inductive GameStatus where
  | setup
  | playing
  | ended
deriving DecidableEq

/-- The root application state (set-based variant). -/
structure AppStateV1 where
  version : Int
  players : List Player
  activePlayerId : Option String
  sets : List QuestionSet
  words : List WordEntry
  activeSetId : Option String
  gameStatus : GameStatus
  currentPuzzleIndex : Int
  puzzles : List PuzzleState
deriving DecidableEq

/-- `defaultState` from `state/defaultState.ts`. -/
def defaultState : AppStateV1 :=
  { version := 1
    players := []
    activePlayerId := none
    sets := []
    words := []
    activeSetId := none
    gameStatus := GameStatus.setup
    currentPuzzleIndex := 0
    puzzles := [] }

/-! ## JavaScript array-indexing helpers

JavaScript `xs[i]` yields `undefined` for any out-of-range (or negative)
index, and `xs[i] = v` on a copied array is only reached in the source at
indices known to be in range. -/

/-- `xs[i]` with a JavaScript number index: `none` when out of range. -/
def listGetInt {α : Type} (l : List α) (i : Int) : Option α :=
  if i < 0 then none else l[i.toNat]?

/-- Replace the element at (in-range) index `i`; out-of-range writes are
never reached by the modelled code and leave the list unchanged. -/
def listSetInt {α : Type} (l : List α) (i : Int) (a : α) : List α :=
  if i < 0 then l else l.set i.toNat a

/-! ## Sorting by `order`

The source sorts with the comparator `(a, b) => a.order - b.order` using
JavaScript's stable sort; a stable insertion sort by `order` models it. -/

/-- Insert a word before the first strictly greater `order`; equal orders
keep the earlier word first (stability). -/
def insertByOrder (w : WordEntry) : List WordEntry → List WordEntry
  | [] => [w]
  | v :: vs => if w.order ≤ v.order then w :: v :: vs else v :: insertByOrder w vs

/-- Stable ascending sort by `order`. -/
def sortByOrder : List WordEntry → List WordEntry
  | [] => []
  | w :: ws => insertByOrder w (sortByOrder ws)

/-! ## Reducer operations (from the set-based `App.tsx`)

Ambient effects (`id(prefix)`, `Date.now()`) are passed explicitly as the
`fresh id` and `now` parameters of the operations that use them. -/

/-- `addPlayer`: append a new player with score 0. -/
def addPlayer (s : AppStateV1) (name pid : String) (now : Int) : AppStateV1 :=
  { s with players := s.players ++ [{ id := pid, name := name, score := 0, createdAt := now }] }

/-- `removePlayer`: filter the player out. -/
def removePlayer (s : AppStateV1) (playerId : String) : AppStateV1 :=
  { s with players := s.players.filter (fun p => p.id != playerId) }

/-- `adjustScore`: add a signed delta to the matching player's score. -/
def adjustScore (s : AppStateV1) (playerId : String) (delta : Int) : AppStateV1 :=
  { s with players := s.players.map (fun p =>
      if p.id == playerId then { p with score := p.score + delta } else p) }

/-- `createSet`: append a new set; it becomes active when `activeSetId`
was previously unset (`s.activeSetId ?? newSet.id`). -/
def createSet (s : AppStateV1) (name sid : String) (now : Int) : AppStateV1 :=
  { s with
    sets := s.sets ++ [{ id := sid, name := name, createdAt := now }]
    activeSetId := some (s.activeSetId.getD sid) }

/-- `deleteSet`: remove the set, cascade-delete its words, and repoint
`activeSetId` at the first remaining set when the active one was
deleted. -/
def deleteSet (s : AppStateV1) (setId : String) : AppStateV1 :=
  let newSets := s.sets.filter (fun q => q.id != setId)
  let newWords := s.words.filter (fun w => w.setId != setId)
  let newActiveSetId := if s.activeSetId = some setId
    then newSets.head?.map (fun q => q.id)
    else s.activeSetId
  { s with sets := newSets, words := newWords, activeSetId := newActiveSetId }

/-- `selectSet`: set `activeSetId` without validating the id. -/
def selectSet (s : AppStateV1) (setId : String) : AppStateV1 :=
  { s with activeSetId := some setId }

/-- `addWord`: no-op without an active set; otherwise append a word into
the active set at `max(order in set, 0) + 1`. -/
def addWord (s : AppStateV1) (text theme wid : String) (now : Int) : AppStateV1 :=
  match s.activeSetId with
  | none => s
  | some act =>
    let setWords := s.words.filter (fun w => w.setId == act)
    let maxOrder := setWords.foldl (fun m w => max m w.order) 0
    { s with words := s.words ++
        [{ id := wid, text := text, theme := theme, setId := act,
           order := maxOrder + 1, createdAt := now }] }

/-- `deleteWord`: remove unconditionally by id. -/
def deleteWord (s : AppStateV1) (wordId : String) : AppStateV1 :=
  { s with words := s.words.filter (fun w => w.id != wordId) }

/-- Direction of a word move. -/
inductive Direction where
  | up
  | down
deriving DecidableEq

/-- `moveWord`: swap the `order` values of the word and its neighbor in
its own set's sort-by-`order` sequence; no-op at a boundary. -/
def moveWord (s : AppStateV1) (wordId : String) (direction : Direction) : AppStateV1 :=
  match s.words.find? (fun w => w.id == wordId) with
  | none => s
  | some word =>
    let sorted := sortByOrder (s.words.filter (fun w => w.setId == word.setId))
    match sorted.findIdx? (fun w => w.id == wordId) with
    | none => s
    | some idx =>
      if direction = Direction.up ∧ idx = 0 then s
      else
        let j := match direction with
          | Direction.up => idx - 1
          | Direction.down => idx + 1
        match sorted[idx]?, sorted[j]? with
        | some cur, some nb =>
          { s with words := s.words.map (fun w =>
              if w.id == wordId then { w with order := nb.order }
              else if w.id == nb.id then { w with order := cur.order }
              else w) }
        | _, _ => s

/-- A fresh puzzle for one word. -/
def freshPuzzle (w : WordEntry) : PuzzleState :=
  { wordId := w.id, revealedLetters := [], wrongLetters := [], solved := false }

/-- `startGame`: no-op when the chosen set has no words; otherwise build
fresh puzzles for the set's words in `order` sequence and enter
`playing`. -/
def startGame (s : AppStateV1) (setId : String) : AppStateV1 :=
  let setWords := sortByOrder (s.words.filter (fun w => w.setId == setId))
  match setWords with
  | [] => s
  | _ =>
    { s with
      activeSetId := some setId
      gameStatus := GameStatus.playing
      currentPuzzleIndex := 0
      puzzles := setWords.map freshPuzzle }

/-- `endGame`: clear the puzzles, reset the index, enter `ended`. -/
def endGame (s : AppStateV1) : AppStateV1 :=
  { s with gameStatus := GameStatus.ended, puzzles := [], currentPuzzleIndex := 0 }

/-- The report returned by `guessLetter` alongside the new state. -/
structure GuessResult where
  correct : Bool
  positions : List Nat
deriving DecidableEq

/-- ASCII model of JavaScript `toLowerCase` on a string. -/
def jsLowerStr (s : String) : String := String.mk (s.data.map jsLowerChar)

/-- Positions (0-based) at which a character of `cs`, lowercased, equals
the string `lower` — the `split("").forEach` scan of the source. -/
def letterPositionsAux (lower : String) : List Char → Nat → List Nat
  | [], _ => []
  | c :: rest, i =>
    if String.mk [jsLowerChar c] == lower
      then i :: letterPositionsAux lower rest (i + 1)
      else letterPositionsAux lower rest (i + 1)

/-- All 0-based positions of `lower` in `text` (case-insensitive,
per-character). -/
def letterPositions (text : String) (lower : String) : List Nat :=
  letterPositionsAux lower text.data 0

/-- `guessLetter`: evaluate a letter guess against the current puzzle,
returning the new state and the `{correct, positions}` report. -/
def guessLetter (s : AppStateV1) (letter : String) : AppStateV1 × GuessResult :=
  let noResult : GuessResult := { correct := false, positions := [] }
  match listGetInt s.puzzles s.currentPuzzleIndex with
  | none => (s, noResult)
  | some puzzle =>
    if puzzle.solved then (s, noResult)
    else
      let lower := jsLowerStr letter
      if puzzle.revealedLetters.contains lower || puzzle.wrongLetters.contains lower
        then (s, noResult)
      else
        match s.words.find? (fun w => w.id == puzzle.wordId) with
        | none => (s, noResult)
        | some word =>
          let positions := letterPositions word.text lower
          let isCorrect : Bool := !positions.isEmpty
          let newPuzzle := if isCorrect
            then { puzzle with revealedLetters := puzzle.revealedLetters ++ [lower] }
            else { puzzle with wrongLetters := puzzle.wrongLetters ++ [lower] }
          ({ s with puzzles := listSetInt s.puzzles s.currentPuzzleIndex newPuzzle },
           { correct := isCorrect, positions := positions })

/-- `solvePuzzle`: mark the current puzzle solved; no-op when absent or
already solved. -/
def solvePuzzle (s : AppStateV1) : AppStateV1 :=
  match listGetInt s.puzzles s.currentPuzzleIndex with
  | none => s
  | some puzzle =>
    if puzzle.solved then s
    else
      let newPuzzle := { puzzle with solved := true }
      { s with puzzles := listSetInt s.puzzles s.currentPuzzleIndex newPuzzle }

/-- `nextPuzzle`: clamped increment of the current puzzle index. -/
def nextPuzzle (s : AppStateV1) : AppStateV1 :=
  if s.currentPuzzleIndex ≥ (s.puzzles.length : Int) - 1 then s
  else { s with currentPuzzleIndex := s.currentPuzzleIndex + 1 }

/-- `prevPuzzle`: clamped decrement of the current puzzle index. -/
def prevPuzzle (s : AppStateV1) : AppStateV1 :=
  if s.currentPuzzleIndex ≤ 0 then s
  else { s with currentPuzzleIndex := s.currentPuzzleIndex - 1 }

/-- `resetAll`: replace everything with the default state. -/
def resetAll (_ : AppStateV1) : AppStateV1 := defaultState

/-! ## Migration contract (`migrateToV1` from the set-based `App.tsx`)

The persisted value is modelled structurally: every field that the code
guards with `Array.isArray`/`??` is an `Option`, where `none` stands for
an absent (or non-array) field.  JavaScript's falsy test `!w.setId`
accepts both an absent `setId` and the empty string; `??` only replaces
the absent one — the model keeps both behaviors. -/

/-- A persisted word, possibly missing `theme` or `setId`. -/
structure RawWord where
  id : String
  text : String
  theme : Option String
  setId : Option String
  order : Int
  createdAt : Int
deriving DecidableEq

/-- A persisted puzzle, possibly missing `wrongLetters`. -/
structure RawPuzzle where
  wordId : String
  revealedLetters : List String
  wrongLetters : Option (List String)
  solved : Bool
deriving DecidableEq

/-- A persisted (legacy or current) application state. -/
structure RawState where
  version : Option Int
  players : Option (List Player)
  activePlayerId : Option String
  sets : Option (List QuestionSet)
  words : Option (List RawWord)
  activeSetId : Option String
  gameStatus : Option GameStatus
  currentPuzzleIndex : Option Int
  puzzles : Option (List RawPuzzle)
deriving DecidableEq

/-- Backfill a puzzle's missing `wrongLetters` with the empty list. -/
def migratePuzzle (p : RawPuzzle) : PuzzleState :=
  { wordId := p.wordId
    revealedLetters := p.revealedLetters
    wrongLetters := p.wrongLetters.getD []
    solved := p.solved }

/-- Backfill a word's missing `theme` with `""` and missing `setId` with
the given default (`w.setId ?? dflt`). -/
def migrateWord (dflt : String) (w : RawWord) : WordEntry :=
  { id := w.id
    text := w.text
    theme := w.theme.getD ""
    setId := w.setId.getD dflt
    order := w.order
    createdAt := w.createdAt }

/-- `migrateToV1`: produce a valid current-shape state from an arbitrary
persisted value.  The ambient `id("s")` and `Date.now()` of the
synthesized "Default Set" are the explicit `freshId`/`now` parameters. -/
def migrateToV1 (freshId : String) (now : Int) (raw : Option RawState) : AppStateV1 :=
  match raw with
  | none => defaultState
  | some a =>
    let puzzles := (a.puzzles.getD []).map migratePuzzle
    let sets0 := a.sets.getD []
    let words0 := a.words.getD []
    let wordsWithoutSet := words0.filter (fun w => w.setId.getD "" == "")
    if 0 < wordsWithoutSet.length ∧ sets0.length = 0 then
      { version := a.version.getD 1
        players := a.players.getD []
        activePlayerId := a.activePlayerId
        sets := [{ id := freshId, name := "Default Set", createdAt := now }]
        words := words0.map (migrateWord freshId)
        activeSetId := some freshId
        gameStatus := a.gameStatus.getD GameStatus.setup
        currentPuzzleIndex := a.currentPuzzleIndex.getD 0
        puzzles := puzzles }
    else
      { version := a.version.getD 1
        players := a.players.getD []
        activePlayerId := a.activePlayerId
        sets := sets0
        words := words0.map (migrateWord ((sets0.head?.map (fun q => q.id)).getD ""))
        activeSetId := a.activeSetId
        gameStatus := a.gameStatus.getD GameStatus.setup
        currentPuzzleIndex := a.currentPuzzleIndex.getD 0
        puzzles := puzzles }

/-- Serialize a current-shape state back into the persisted shape (what
`JSON.stringify` followed by `JSON.parse` yields: every field present). -/
def toRawWord (w : WordEntry) : RawWord :=
  { id := w.id, text := w.text, theme := some w.theme, setId := some w.setId,
    order := w.order, createdAt := w.createdAt }

/-- Serialize a puzzle back into the persisted shape. -/
def toRawPuzzle (p : PuzzleState) : RawPuzzle :=
  { wordId := p.wordId, revealedLetters := p.revealedLetters,
    wrongLetters := some p.wrongLetters, solved := p.solved }

/-- Serialize an application state back into the persisted shape. -/
def toRawState (s : AppStateV1) : RawState :=
  { version := some s.version
    players := some s.players
    activePlayerId := s.activePlayerId
    sets := some s.sets
    words := some (s.words.map toRawWord)
    activeSetId := s.activeSetId
    gameStatus := some s.gameStatus
    currentPuzzleIndex := some s.currentPuzzleIndex
    puzzles := some (s.puzzles.map toRawPuzzle) }

/-! ## Actions and invariants -/

/-- One reducer action, with ambient fresh ids and timestamps made
explicit parameters. -/
inductive Action where
  | addPlayer (name pid : String) (now : Int)
  | removePlayer (playerId : String)
  | adjustScore (playerId : String) (delta : Int)
  | createSet (name sid : String) (now : Int)
  | deleteSet (setId : String)
  | selectSet (setId : String)
  | addWord (text theme wid : String) (now : Int)
  | deleteWord (wordId : String)
  | moveWord (wordId : String) (direction : Direction)
  | startGame (setId : String)
  | endGame
  | guessLetter (letter : String)
  | solvePuzzle
  | nextPuzzle
  | prevPuzzle
  | resetAll
deriving DecidableEq

/-- Dispatch one action to the corresponding reducer operation (for
`guessLetter`, the state component of its result). -/
def applyAction (s : AppStateV1) : Action → AppStateV1
  | Action.addPlayer name pid now => addPlayer s name pid now
  | Action.removePlayer playerId => removePlayer s playerId
  | Action.adjustScore playerId delta => adjustScore s playerId delta
  | Action.createSet name sid now => createSet s name sid now
  | Action.deleteSet setId => deleteSet s setId
  | Action.selectSet setId => selectSet s setId
  | Action.addWord text theme wid now => addWord s text theme wid now
  | Action.deleteWord wordId => deleteWord s wordId
  | Action.moveWord wordId direction => moveWord s wordId direction
  | Action.startGame setId => startGame s setId
  | Action.endGame => endGame s
  | Action.guessLetter letter => (guessLetter s letter).1
  | Action.solvePuzzle => solvePuzzle s
  | Action.nextPuzzle => nextPuzzle s
  | Action.prevPuzzle => prevPuzzle s
  | Action.resetAll => resetAll s

/-- Apply a sequence of actions left to right. -/
def applyAll (s : AppStateV1) : List Action → AppStateV1
  | [] => s
  | a :: rest => applyAll (applyAction s a) rest

/-- Referential integrity of words: every `WordEntry.setId` names an
existing set. -/
def wordsOk (s : AppStateV1) : Bool :=
  s.words.all (fun w => s.sets.any (fun q => q.id == w.setId))

/-- Referential integrity of the selection: `activeSetId`, when set,
names an existing set. -/
def activeOk (s : AppStateV1) : Bool :=
  match s.activeSetId with
  | none => true
  | some a => s.sets.any (fun q => q.id == a)

/-- The combined referential-integrity invariant. -/
def setsInv (s : AppStateV1) : Bool := wordsOk s && activeOk s

/-- An action is admissible when a `selectSet` only targets an existing
set (the source documents this as the caller's responsibility). -/
def stepOk (s : AppStateV1) : Action → Bool
  | Action.selectSet setId => s.sets.any (fun q => q.id == setId)
  | _ => true

/-- Admissibility of a whole action sequence, checked statefully. -/
def seqOk (s : AppStateV1) : List Action → Bool
  | [] => true
  | a :: rest => stepOk s a && seqOk (applyAction s a) rest

/-! ## C2: idempotence of the migration -/

theorem migrateWord_toRawWord (d : String) (w : WordEntry) :
    migrateWord d (toRawWord w) = w := rfl

theorem migratePuzzle_toRawPuzzle (p : PuzzleState) :
    migratePuzzle (toRawPuzzle p) = p := rfl

/-- Serializing a state and filtering its raw words for a falsy `setId`
matches filtering the state's own words for an empty `setId`. -/
theorem rawWords_falsy_filter (ws : List WordEntry) :
    (ws.map toRawWord).filter (fun w => w.setId.getD "" == "") =
      (ws.filter (fun w => w.setId == "")).map toRawWord := by
  rw [List.filter_map]
  rfl

/-- Re-migrating a serialized current-shape state is the identity,
provided the state never pairs an empty `sets` list with a word whose
`setId` is the empty string (which would re-trigger Default-Set
synthesis). -/
theorem migrateToV1_toRawState (g : String) (n : Int) (y : AppStateV1)
    (h : y.sets = [] → y.words.filter (fun w => w.setId == "") = []) :
    migrateToV1 g n (some (toRawState y)) = y := by
  have hcond : ¬(0 < (((y.words.map toRawWord)).filter
      (fun w => w.setId.getD "" == "")).length ∧ (y.sets).length = 0) := by
    rintro ⟨hpos, hlen0⟩
    have hsets : y.sets = [] := List.length_eq_zero.mp hlen0
    rw [rawWords_falsy_filter, h hsets] at hpos
    simp at hpos
  rw [migrateToV1]
  simp only [toRawState, Option.getD_some]
  rw [if_neg hcond]
  have hwords : ∀ d : String,
      (y.words.map toRawWord).map (migrateWord d) = y.words := by
    intro d
    rw [List.map_map]
    rw [show migrateWord d ∘ toRawWord = id from funext (fun w => rfl)]
    exact List.map_id _
  have hpuzzles : (y.puzzles.map toRawPuzzle).map migratePuzzle = y.puzzles := by
    rw [List.map_map]
    rw [show migratePuzzle ∘ toRawPuzzle = id from funext (fun p => rfl)]
    exact List.map_id _
  rw [hwords, hpuzzles]

/-- Any migration output with an empty `sets` list has no word with an
empty `setId`. -/
theorem migrateToV1_sets_nil (g : String) (n : Int) (raw : Option RawState)
    (hs : (migrateToV1 g n raw).sets = []) :
    (migrateToV1 g n raw).words.filter (fun w => w.setId == "") = [] := by
  cases raw with
  | none => rfl
  | some a =>
    by_cases hc : 0 < ((a.words.getD []).filter
        (fun w => w.setId.getD "" == "")).length ∧ (a.sets.getD []).length = 0
    · rw [migrateToV1] at hs
      simp only [hc, if_true] at hs
      exact absurd hs (by simp)
    · rw [migrateToV1] at hs ⊢
      simp only [hc, if_false] at hs ⊢
      have hlen0 : (a.sets.getD []).length = 0 := by rw [hs]; rfl
      have hfil : (a.words.getD []).filter (fun w => w.setId.getD "" == "") = [] := by
        rcases Nat.eq_zero_or_pos ((a.words.getD []).filter
            (fun w => w.setId.getD "" == "")).length with h0 | hpos
        · exact List.length_eq_zero.mp h0
        · exact absurd ⟨hpos, hlen0⟩ hc
      have hhead : ((a.sets.getD []).head?.map (fun q => q.id)).getD "" = "" := by
        rw [List.length_eq_zero.mp hlen0]
        rfl
      rw [hhead]
      rw [List.filter_map]
      rw [show ((fun w : WordEntry => w.setId == "") ∘ migrateWord "") =
        (fun w : RawWord => w.setId.getD "" == "") from rfl]
      rw [hfil]
      rfl

/-! ## Permutation and frame lemmas -/

theorem insertByOrder_perm (w : WordEntry) :
    ∀ l : List WordEntry, (insertByOrder w l).Perm (w :: l)
  | [] => List.Perm.refl _
  | v :: vs => by
    rw [insertByOrder]
    by_cases h : w.order ≤ v.order
    · rw [if_pos h]
    · rw [if_neg h]
      exact List.Perm.trans ((insertByOrder_perm w vs).cons v) (List.Perm.swap w v vs)

theorem sortByOrder_perm : ∀ l : List WordEntry, (sortByOrder l).Perm l
  | [] => List.Perm.refl _
  | w :: ws =>
    List.Perm.trans (insertByOrder_perm w (sortByOrder ws))
      ((sortByOrder_perm ws).cons w)

theorem mem_sortByOrder {x : WordEntry} {l : List WordEntry} :
    x ∈ sortByOrder l ↔ x ∈ l :=
  (sortByOrder_perm l).mem_iff

/-- The referential-integrity invariant only reads `words`, `sets` and
`activeSetId`. -/
theorem setsInv_eq_of_fields {s t : AppStateV1} (hw : t.words = s.words)
    (hs : t.sets = s.sets) (ha : t.activeSetId = s.activeSetId) :
    setsInv t = setsInv s := by
  rw [setsInv, setsInv, wordsOk, wordsOk, activeOk, activeOk, hw, hs, ha]

/-- `guessLetter` changes at most the puzzle list. -/
theorem guessLetter_state_frame (s : AppStateV1) (letter : String) :
    ∃ pz, (guessLetter s letter).1 = { s with puzzles := pz } := by
  rw [guessLetter]
  cases listGetInt s.puzzles s.currentPuzzleIndex with
  | none => exact ⟨s.puzzles, rfl⟩
  | some puzzle =>
    by_cases h1 : puzzle.solved = true
    · simp only [h1, if_true]
      exact ⟨s.puzzles, rfl⟩
    · simp only [h1, if_false, Bool.false_eq_true]
      by_cases h2 : (puzzle.revealedLetters.contains (jsLowerStr letter) ||
          puzzle.wrongLetters.contains (jsLowerStr letter)) = true
      · simp only [h2, if_true]
        exact ⟨s.puzzles, rfl⟩
      · simp only [h2, if_false, Bool.false_eq_true]
        cases s.words.find? (fun w => w.id == puzzle.wordId) with
        | none => exact ⟨s.puzzles, rfl⟩
        | some word => exact ⟨_, rfl⟩

/-- `solvePuzzle` changes at most the puzzle list. -/
theorem solvePuzzle_state_frame (s : AppStateV1) :
    ∃ pz, solvePuzzle s = { s with puzzles := pz } := by
  rw [solvePuzzle]
  cases listGetInt s.puzzles s.currentPuzzleIndex with
  | none => exact ⟨s.puzzles, rfl⟩
  | some puzzle =>
    by_cases h1 : puzzle.solved = true
    · simp only [h1, if_true]
      exact ⟨s.puzzles, rfl⟩
    · simp only [h1, if_false, Bool.false_eq_true]
      exact ⟨_, rfl⟩

/-- `moveWord` keeps `sets` and `activeSetId`, and every word of the
result inherits its `setId` from a word of the input. -/
theorem moveWord_state_frame (s : AppStateV1) (wid : String) (dir : Direction) :
    (moveWord s wid dir).sets = s.sets ∧
    (moveWord s wid dir).activeSetId = s.activeSetId ∧
    ∀ w ∈ (moveWord s wid dir).words, ∃ v ∈ s.words, v.setId = w.setId := by
  rw [moveWord]
  cases s.words.find? (fun w => w.id == wid) with
  | none => exact ⟨rfl, rfl, fun w hw => ⟨w, hw, rfl⟩⟩
  | some word =>
    simp only
    cases (sortByOrder (s.words.filter (fun w => w.setId == word.setId))).findIdx?
        (fun w => w.id == wid) with
    | none => exact ⟨rfl, rfl, fun w hw => ⟨w, hw, rfl⟩⟩
    | some idx =>
      simp only
      by_cases hb : dir = Direction.up ∧ idx = 0
      · rw [if_pos hb]
        exact ⟨rfl, rfl, fun w hw => ⟨w, hw, rfl⟩⟩
      · rw [if_neg hb]
        cases (sortByOrder (s.words.filter (fun w => w.setId == word.setId)))[idx]? with
        | none => exact ⟨rfl, rfl, fun w hw => ⟨w, hw, rfl⟩⟩
        | some cur =>
          cases hnb : (sortByOrder (s.words.filter (fun w => w.setId == word.setId)))[
              match dir with
              | Direction.up => idx - 1
              | Direction.down => idx + 1]? with
          | none => exact ⟨rfl, rfl, fun w hw => ⟨w, hw, rfl⟩⟩
          | some nb =>
            refine ⟨rfl, rfl, ?_⟩
            intro w hw
            rcases List.mem_map.mp hw with ⟨v, hv, hveq⟩
            refine ⟨v, hv, ?_⟩
            rw [← hveq]
            by_cases h1 : (v.id == wid) = true
            · simp [h1]
            · by_cases h2 : (v.id == nb.id) = true
              · simp [h1, h2]
              · simp [h1, h2]

/-- Propositional view of `wordsOk`. -/
theorem wordsOk_iff (s : AppStateV1) :
    wordsOk s = true ↔ ∀ w ∈ s.words, ∃ q ∈ s.sets, q.id = w.setId := by
  simp [wordsOk, List.all_eq_true, List.any_eq_true]

/-- Propositional view of `activeOk`. -/
theorem activeOk_iff (s : AppStateV1) :
    activeOk s = true ↔ ∀ a, s.activeSetId = some a → ∃ q ∈ s.sets, q.id = a := by
  rw [activeOk]
  cases h : s.activeSetId with
  | none => simp
  | some x => simp [List.any_eq_true]

/-- One admissible reducer step preserves the combined
referential-integrity invariant. -/
theorem setsInv_step (s : AppStateV1) (a : Action) (hinv : setsInv s = true)
    (hok : stepOk s a = true) : setsInv (applyAction s a) = true := by
  have hinv2 : wordsOk s = true ∧ activeOk s = true := by
    have h := hinv
    rw [setsInv, Bool.and_eq_true] at h
    exact h
  have hwords := (wordsOk_iff s).mp hinv2.1
  have hactive := (activeOk_iff s).mp hinv2.2
  cases a with
  | addPlayer name pid now =>
    show setsInv (addPlayer s name pid now) = true
    rw [setsInv_eq_of_fields rfl rfl rfl]
    exact hinv
  | removePlayer playerId =>
    show setsInv (removePlayer s playerId) = true
    rw [setsInv_eq_of_fields rfl rfl rfl]
    exact hinv
  | adjustScore playerId delta =>
    show setsInv (adjustScore s playerId delta) = true
    rw [setsInv_eq_of_fields rfl rfl rfl]
    exact hinv
  | createSet name sid now =>
    show setsInv (createSet s name sid now) = true
    rw [setsInv, Bool.and_eq_true]
    constructor
    · rw [wordsOk_iff]
      intro w hw
      rcases hwords w hw with ⟨q, hq, hqid⟩
      exact ⟨q, List.mem_append_left _ hq, hqid⟩
    · rw [activeOk_iff]
      intro b hb
      cases hact : s.activeSetId with
      | none =>
        have hbs : b = sid := by
          rw [show (createSet s name sid now).activeSetId =
            some (s.activeSetId.getD sid) from rfl, hact] at hb
          exact (Option.some_inj.mp hb).symm
        refine ⟨{ id := sid, name := name, createdAt := now }, ?_, hbs.symm⟩
        exact List.mem_append_right _ (by simp)
      | some x =>
        have hbx : b = x := by
          rw [show (createSet s name sid now).activeSetId =
            some (s.activeSetId.getD sid) from rfl, hact] at hb
          exact (Option.some_inj.mp hb).symm
        rcases hactive x hact with ⟨q, hq, hqid⟩
        exact ⟨q, List.mem_append_left _ hq, by rw [hqid, hbx]⟩
  | deleteSet setId =>
    show setsInv (deleteSet s setId) = true
    rw [setsInv, Bool.and_eq_true]
    constructor
    · rw [wordsOk_iff]
      intro w hw
      have hw2 := List.mem_filter.mp hw
      rcases hwords w hw2.1 with ⟨q, hq, hqid⟩
      refine ⟨q, List.mem_filter.mpr ⟨hq, ?_⟩, hqid⟩
      rw [bne_iff_ne]
      intro hqeq
      rw [hqid] at hqeq
      rw [hqeq] at hw2
      simpa using hw2.2
    · rw [activeOk_iff]
      intro b hb
      by_cases hcase : s.activeSetId = some setId
      · rw [show (deleteSet s setId).activeSetId =
          (if s.activeSetId = some setId
            then (s.sets.filter (fun q => q.id != setId)).head?.map (fun q => q.id)
            else s.activeSetId) from rfl, if_pos hcase] at hb
        rcases Option.map_eq_some'.mp hb with ⟨q, hq, hqid⟩
        exact ⟨q, List.mem_of_mem_head? hq, hqid⟩
      · rw [show (deleteSet s setId).activeSetId =
          (if s.activeSetId = some setId
            then (s.sets.filter (fun q => q.id != setId)).head?.map (fun q => q.id)
            else s.activeSetId) from rfl, if_neg hcase] at hb
        rcases hactive b hb with ⟨q, hq, hqid⟩
        refine ⟨q, List.mem_filter.mpr ⟨hq, ?_⟩, hqid⟩
        rw [bne_iff_ne]
        intro hqeq
        rw [hqid] at hqeq
        rw [hqeq] at hb
        exact hcase hb
  | selectSet setId =>
    show setsInv (selectSet s setId) = true
    rw [setsInv, Bool.and_eq_true]
    constructor
    · rw [wordsOk_iff]
      exact hwords
    · rw [activeOk_iff]
      intro b hb
      have hbs : b = setId := (Option.some_inj.mp hb).symm
      rw [stepOk, List.any_eq_true] at hok
      rcases hok with ⟨q, hq, hqid⟩
      exact ⟨q, hq, by rw [beq_iff_eq] at hqid; rw [hqid, hbs]⟩
  | addWord text theme wid now =>
    show setsInv (addWord s text theme wid now) = true
    rw [addWord]
    cases hact : s.activeSetId with
    | none => exact hinv
    | some act =>
      rw [setsInv, Bool.and_eq_true]
      constructor
      · rw [wordsOk_iff]
        intro w hw
        rcases List.mem_append.mp hw with h | h
        · rcases hwords w h with ⟨q, hq, hqid⟩
          exact ⟨q, hq, hqid⟩
        · have hw1 := List.mem_singleton.mp h
          rcases hactive act hact with ⟨q, hq, hqid⟩
          refine ⟨q, hq, ?_⟩
          rw [hw1]
          exact hqid
      · rw [activeOk_iff]
        intro b hb
        have hb2 : s.activeSetId = some b := by rw [hact]; exact hb
        rcases hactive b hb2 with ⟨q, hq, hqid⟩
        exact ⟨q, hq, hqid⟩
  | deleteWord wordId =>
    show setsInv (deleteWord s wordId) = true
    rw [setsInv, Bool.and_eq_true]
    refine ⟨?_, (activeOk_iff _).mpr (fun b hb => hactive b hb)⟩
    rw [wordsOk_iff]
    intro w hw
    exact hwords w (List.mem_filter.mp hw).1
  | moveWord wordId direction =>
    show setsInv (moveWord s wordId direction) = true
    rcases moveWord_state_frame s wordId direction with ⟨hsets, hact, hws⟩
    rw [setsInv, Bool.and_eq_true]
    constructor
    · rw [wordsOk_iff]
      intro w hw
      rcases hws w hw with ⟨v, hv, hvid⟩
      rcases hwords v hv with ⟨q, hq, hqid⟩
      exact ⟨q, by rw [hsets]; exact hq, by rw [hqid, hvid]⟩
    · rw [activeOk_iff]
      intro b hb
      rw [hact] at hb
      rcases hactive b hb with ⟨q, hq, hqid⟩
      exact ⟨q, by rw [hsets]; exact hq, hqid⟩
  | startGame setId =>
    show setsInv (startGame s setId) = true
    rw [startGame]
    cases hsw : sortByOrder (s.words.filter (fun w => w.setId == setId)) with
    | nil => exact hinv
    | cons w rest =>
      rw [setsInv, Bool.and_eq_true]
      constructor
      · rw [wordsOk_iff]
        exact hwords
      · rw [activeOk_iff]
        intro b hb
        have hbs : b = setId := (Option.some_inj.mp hb).symm
        have hwmem : w ∈ sortByOrder (s.words.filter (fun v => v.setId == setId)) := by
          rw [hsw]
          simp
        have hwfil := List.mem_filter.mp (mem_sortByOrder.mp hwmem)
        rcases hwords w hwfil.1 with ⟨q, hq, hqid⟩
        refine ⟨q, hq, ?_⟩
        rw [hqid, hbs]
        exact beq_iff_eq.mp hwfil.2
  | endGame =>
    show setsInv (endGame s) = true
    rw [setsInv_eq_of_fields rfl rfl rfl]
    exact hinv
  | guessLetter letter =>
    show setsInv ((guessLetter s letter).1) = true
    rcases guessLetter_state_frame s letter with ⟨pz, hpz⟩
    rw [hpz, setsInv_eq_of_fields rfl rfl rfl]
    exact hinv
  | solvePuzzle =>
    show setsInv (solvePuzzle s) = true
    rcases solvePuzzle_state_frame s with ⟨pz, hpz⟩
    rw [hpz, setsInv_eq_of_fields rfl rfl rfl]
    exact hinv
  | nextPuzzle =>
    show setsInv (nextPuzzle s) = true
    have hw : (nextPuzzle s).words = s.words := by rw [nextPuzzle]; split <;> rfl
    have hs2 : (nextPuzzle s).sets = s.sets := by rw [nextPuzzle]; split <;> rfl
    have ha : (nextPuzzle s).activeSetId = s.activeSetId := by
      rw [nextPuzzle]; split <;> rfl
    rw [setsInv_eq_of_fields hw hs2 ha]
    exact hinv
  | prevPuzzle =>
    show setsInv (prevPuzzle s) = true
    have hw : (prevPuzzle s).words = s.words := by rw [prevPuzzle]; split <;> rfl
    have hs2 : (prevPuzzle s).sets = s.sets := by rw [prevPuzzle]; split <;> rfl
    have ha : (prevPuzzle s).activeSetId = s.activeSetId := by
      rw [prevPuzzle]; split <;> rfl
    rw [setsInv_eq_of_fields hw hs2 ha]
    exact hinv
  | resetAll =>
    show setsInv defaultState = true
    decide

/-! ## C5 and C6: referential-integrity invariants -/

/-- A state whose `activeSetId` dangles while `words` integrity holds
(vacuously): reachable in the source via `selectSet` with an unknown
id. -/
def ghostActiveState : AppStateV1 := { defaultState with activeSetId := some "ghost" }

/-- C5 counterexample: word referential integrity alone is not preserved
by every reducer operation.  From a state satisfying it (no words at all,
but a dangling `activeSetId` as `selectSet` can produce), a single
`addWord` creates a word whose `setId` references no existing set. -/
theorem wordsOk_not_preserved :
    wordsOk ghostActiveState = true ∧
      wordsOk (applyAction ghostActiveState (Action.addWord "cat" "" "w1" 0)) = false := by
  decide

/-- C5 (amended): starting from a state satisfying the combined
invariant (word referential integrity together with `activeSetId`
validity), every sequence of reducer operations in which each `selectSet`
targets an existing set preserves word referential integrity: every
`WordEntry.setId` still names a present `QuestionSet`. -/
theorem wordsOk_preserved (s : AppStateV1) (acts : List Action)
    (hinv : setsInv s = true) (hseq : seqOk s acts = true) :
    wordsOk (applyAll s acts) = true := by
  induction acts generalizing s with
  | nil =>
    rw [setsInv, Bool.and_eq_true] at hinv
    exact hinv.1
  | cons a rest ih =>
    rw [seqOk, Bool.and_eq_true] at hseq
    exact ih (applyAction s a) (setsInv_step s a hinv hseq.1) hseq.2

/-- A demonstration action sequence touching sets, words and games. -/
def demoActs : List Action :=
  [Action.createSet "Animals" "s1" 0, Action.selectSet "s1",
   Action.addWord "CAT" "" "w1" 1, Action.addWord "DOG" "" "w2" 2,
   Action.startGame "s1", Action.guessLetter "a", Action.endGame,
   Action.deleteSet "s1"]

/-- Witness for C5's theorem at a concrete state and action sequence. -/
theorem wordsOk_preserved_witness :
    setsInv defaultState = true ∧ seqOk defaultState demoActs = true ∧
      wordsOk (applyAll defaultState demoActs) = true :=
  ⟨by decide, by decide, wordsOk_preserved defaultState demoActs (by decide) (by decide)⟩

/-- C6 counterexample: `activeSetId` validity is not preserved by every
reducer operation: `selectSet` stores an arbitrary id without
validation. -/
theorem activeOk_not_preserved :
    activeOk defaultState = true ∧
      activeOk (applyAction defaultState (Action.selectSet "ghost")) = false := by
  decide

/-- C6 (amended): in a state satisfying the combined invariant (word
referential integrity together with `activeSetId` validity), every
reducer operation other than a `selectSet` with a non-existent id
preserves `activeSetId` validity: whenever the new state's `activeSetId`
is set, it names a present `QuestionSet`. -/
theorem activeOk_step (s : AppStateV1) (a : Action) (hinv : setsInv s = true)
    (hok : stepOk s a = true) : activeOk (applyAction s a) = true := by
  have h := setsInv_step s a hinv hok
  rw [setsInv, Bool.and_eq_true] at h
  exact h.2

/-- Witness for C6's theorem at a concrete state and action. -/
theorem activeOk_step_witness :
    setsInv defaultState = true ∧
      stepOk defaultState (Action.createSet "Animals" "s1" 0) = true ∧
      activeOk (applyAction defaultState (Action.createSet "Animals" "s1" 0)) = true :=
  ⟨by decide, by decide,
    activeOk_step defaultState (Action.createSet "Animals" "s1" 0) (by decide) (by decide)⟩

/-! ## Indexed access lemmas -/

theorem listGetInt_listSetInt_ne {α : Type} (l : List α) (i j : Int) (b : α)
    (hne : j ≠ i) : listGetInt (listSetInt l i b) j = listGetInt l j := by
  rw [listSetInt]
  by_cases hi : i < 0
  · rw [if_pos hi]
  · rw [if_neg hi]
    rw [listGetInt, listGetInt]
    by_cases hj : j < 0
    · rw [if_pos hj, if_pos hj]
    · rw [if_neg hj, if_neg hj]
      have htn : i.toNat ≠ j.toNat := by omega
      exact List.getElem?_set_ne htn

theorem listGetInt_listSetInt_self {α : Type} {l : List α} {i : Int} {a : α}
    (b : α) (h : listGetInt l i = some a) :
    listGetInt (listSetInt l i b) i = some b := by
  rw [listGetInt, listSetInt] at *
  by_cases hi : i < 0
  · rw [if_pos hi] at h
    exact absurd h (by simp)
  · rw [if_neg hi] at h ⊢
    rw [if_neg hi]
    have hlen : i.toNat < l.length := (List.getElem?_eq_some.mp h).1
    rw [List.getElem?_set_self]
    simp [hlen]

/-! ## Positions of a letter in a word -/

/-- Membership characterization of the position scan, with a running
start index. -/
theorem mem_letterPositionsAux (lower : String) :
    ∀ (cs : List Char) (k i : Nat),
      i ∈ letterPositionsAux lower cs k ↔
      (k ≤ i ∧ ∃ c, cs.get? (i - k) = some c ∧
        (String.mk [jsLowerChar c] == lower) = true)
  | [], k, i => by
    simp [letterPositionsAux]
  | c :: rest, k, i => by
    rw [letterPositionsAux]
    by_cases hc : (String.mk [jsLowerChar c] == lower) = true
    · rw [if_pos hc]
      constructor
      · intro hmem
        rcases List.mem_cons.mp hmem with h | h
        · refine ⟨le_of_eq h.symm, c, ?_, hc⟩
          rw [h, Nat.sub_self]
          exact List.get?_cons_zero
        · rcases (mem_letterPositionsAux lower rest (k + 1) i).mp h with ⟨hk, d, hd, hdeq⟩
          refine ⟨by omega, d, ?_, hdeq⟩
          rw [show i - k = (i - (k + 1)) + 1 by omega]
          rw [List.get?_cons_succ]
          exact hd
      · rintro ⟨hk, d, hd, hdeq⟩
        by_cases hik : i = k
        · exact List.mem_cons.mpr (Or.inl hik)
        · refine List.mem_cons.mpr (Or.inr ?_)
          refine (mem_letterPositionsAux lower rest (k + 1) i).mpr ⟨by omega, d, ?_, hdeq⟩
          rw [show i - k = (i - (k + 1)) + 1 by omega, List.get?_cons_succ] at hd
          exact hd
    · rw [if_neg hc]
      constructor
      · intro hmem
        rcases (mem_letterPositionsAux lower rest (k + 1) i).mp hmem with ⟨hk, d, hd, hdeq⟩
        refine ⟨by omega, d, ?_, hdeq⟩
        rw [show i - k = (i - (k + 1)) + 1 by omega, List.get?_cons_succ]
        exact hd
      · rintro ⟨hk, d, hd, hdeq⟩
        by_cases hik : i = k
        · rw [hik, Nat.sub_self, List.get?_cons_zero] at hd
          have : d = c := by injection hd with h; exact h.symm
          rw [this] at hdeq
          exact absurd hdeq hc
        · refine (mem_letterPositionsAux lower rest (k + 1) i).mpr ⟨by omega, d, ?_, hdeq⟩
          rw [show i - k = (i - (k + 1)) + 1 by omega, List.get?_cons_succ] at hd
          exact hd

/-- A position is collected exactly when the character there, lowercased,
equals the lowercased guess. -/
theorem mem_letterPositions (text lower : String) (i : Nat) :
    i ∈ letterPositions text lower ↔
      ∃ c, text.data.get? i = some c ∧
        (String.mk [jsLowerChar c] == lower) = true := by
  rw [letterPositions, mem_letterPositionsAux]
  constructor
  · rintro ⟨-, d, hd, hdeq⟩
    rw [Nat.sub_zero] at hd
    exact ⟨d, hd, hdeq⟩
  · rintro ⟨d, hd, hdeq⟩
    exact ⟨Nat.zero_le i, d, by rw [Nat.sub_zero]; exact hd, hdeq⟩

/-! ## C1, C4, C9: guessing a letter -/

/-- How a fresh guess updates the current puzzle: the lowercased letter
goes to `revealedLetters` when some position matched, to `wrongLetters`
otherwise. -/
def guessUpdate (p : PuzzleState) (lower : String) (pos : List Nat) : PuzzleState :=
  if !pos.isEmpty then { p with revealedLetters := p.revealedLetters ++ [lower] }
  else { p with wrongLetters := p.wrongLetters ++ [lower] }

/-- C1: a fresh guess against an unsolved current puzzle whose word
exists.  The report lists exactly the 0-based character positions at
which the word's character, lowercased, equals the lowercased guess
(spaces and punctuation positions included), with `correct` true exactly
when at least one position was found; the new state adds exactly the
lowercased letter to the current puzzle's `revealedLetters` when correct
and to its `wrongLetters` otherwise; every other puzzle and every other
state field is unchanged. -/
theorem guessLetter_fresh (s : AppStateV1) (letter : String) (p : PuzzleState)
    (w : WordEntry)
    (hp : listGetInt s.puzzles s.currentPuzzleIndex = some p)
    (hsolved : p.solved = false)
    (hw : s.words.find? (fun v => v.id == p.wordId) = some w)
    (hrev : p.revealedLetters.contains (jsLowerStr letter) = false)
    (hwrong : p.wrongLetters.contains (jsLowerStr letter) = false) :
    (guessLetter s letter).2 =
      { correct := !(letterPositions w.text (jsLowerStr letter)).isEmpty
        positions := letterPositions w.text (jsLowerStr letter) } ∧
    (∀ i : Nat, i ∈ letterPositions w.text (jsLowerStr letter) ↔
      ∃ c, w.text.data.get? i = some c ∧
        (String.mk [jsLowerChar c] == jsLowerStr letter) = true) ∧
    listGetInt ((guessLetter s letter).1).puzzles s.currentPuzzleIndex =
      some (guessUpdate p (jsLowerStr letter)
        (letterPositions w.text (jsLowerStr letter))) ∧
    (∀ j : Int, j ≠ s.currentPuzzleIndex →
      listGetInt ((guessLetter s letter).1).puzzles j = listGetInt s.puzzles j) ∧
    ((guessLetter s letter).1).players = s.players ∧
    ((guessLetter s letter).1).sets = s.sets ∧
    ((guessLetter s letter).1).words = s.words ∧
    ((guessLetter s letter).1).activeSetId = s.activeSetId ∧
    ((guessLetter s letter).1).gameStatus = s.gameStatus ∧
    ((guessLetter s letter).1).currentPuzzleIndex = s.currentPuzzleIndex := by
  have hred : guessLetter s letter =
      ({ s with puzzles := (listSetInt s.puzzles s.currentPuzzleIndex
            (guessUpdate p (jsLowerStr letter)
              (letterPositions w.text (jsLowerStr letter)))) },
       { correct := !(letterPositions w.text (jsLowerStr letter)).isEmpty
         positions := letterPositions w.text (jsLowerStr letter) }) := by
    rw [guessLetter, hp]
    simp only [hsolved, Bool.false_eq_true, if_false, hrev, hwrong, Bool.or_self, hw,
      guessUpdate]
  refine ⟨by rw [hred], fun i => mem_letterPositions w.text (jsLowerStr letter) i,
    ?_, ?_, by rw [hred], by rw [hred], by rw [hred], by rw [hred], by rw [hred],
    by rw [hred]⟩
  · rw [hred]
    exact listGetInt_listSetInt_self _ hp
  · intro j hj
    rw [hred]
    exact listGetInt_listSetInt_ne _ _ _ _ hj

/-! ## Concrete demonstration states -/

/-- A demonstration question set. -/
def demoSet : QuestionSet := { id := "s1", name := "Animals", createdAt := 0 }

/-- First demonstration word: `"CAT"`. -/
def demoWord1 : WordEntry :=
  { id := "w1", text := "CAT", theme := "", setId := "s1", order := 1, createdAt := 0 }

/-- Second demonstration word: `"DOG"`. -/
def demoWord2 : WordEntry :=
  { id := "w2", text := "DOG", theme := "", setId := "s1", order := 2, createdAt := 0 }

/-- A populated setup state. -/
def demoBase : AppStateV1 :=
  { defaultState with
    sets := [demoSet]
    words := [demoWord1, demoWord2]
    activeSetId := some "s1" }

/-- The game state right after starting a game on the demo set. -/
def demoGame : AppStateV1 := startGame demoBase "s1"

/-- The current puzzle of `demoGame`. -/
def demoPuzzle : PuzzleState := freshPuzzle demoWord1

/-- `demoGame` after a correct guess of `"t"`. -/
def demoGameAfterT : AppStateV1 := (guessLetter demoGame "t").1

/-- The current puzzle of `demoGameAfterT`. -/
def demoPuzzleT : PuzzleState :=
  { wordId := "w1", revealedLetters := ["t"], wrongLetters := [], solved := false }

/-- Witness for C1's theorem: guessing `"T"` against `"CAT"` reports
`{correct: true, positions: [2]}`. -/
theorem guessLetter_fresh_witness :
    (guessLetter demoGame "T").2 = { correct := true, positions := [2] } := by
  have h := (guessLetter_fresh demoGame "T" demoPuzzle demoWord1 (by decide)
    (by decide) (by decide) (by decide) (by decide)).1
  rw [h]
  decide

/-- C4 counterexample: re-guessing a letter does not return the same
report as the original guess.  The first guess of `"t"` against `"CAT"`
reports `{correct: true, positions: [2]}`; repeating it leaves the state
unchanged but reports `{correct: false, positions: []}`. -/
theorem guessLetter_repeat_not_same_result :
    (guessLetter demoGameAfterT "t").1 = demoGameAfterT ∧
      (guessLetter demoGame "t").2 = { correct := true, positions := [2] } ∧
      (guessLetter demoGameAfterT "t").2 = { correct := false, positions := [] } := by
  decide

/-- C4 (amended): when the guessed letter (lowercased) was already
classified into `revealedLetters` or `wrongLetters` of the unsolved
current puzzle, `guessLetter` returns the state unchanged (no duplicate
entry) and always reports `{correct: false, positions: []}`, regardless
of what the original guess reported. -/
theorem guessLetter_repeat (s : AppStateV1) (letter : String) (p : PuzzleState)
    (hp : listGetInt s.puzzles s.currentPuzzleIndex = some p)
    (hsolved : p.solved = false)
    (hdup : (p.revealedLetters.contains (jsLowerStr letter) ||
      p.wrongLetters.contains (jsLowerStr letter)) = true) :
    guessLetter s letter = (s, { correct := false, positions := [] }) := by
  rw [guessLetter, hp]
  simp only [hsolved, Bool.false_eq_true, if_false, hdup, if_true]

/-- Witness for C4's theorem: re-guessing `"t"` in `demoGameAfterT`. -/
theorem guessLetter_repeat_witness :
    listGetInt demoGameAfterT.puzzles demoGameAfterT.currentPuzzleIndex =
        some demoPuzzleT ∧
      demoPuzzleT.solved = false ∧
      (demoPuzzleT.revealedLetters.contains (jsLowerStr "t") ||
        demoPuzzleT.wrongLetters.contains (jsLowerStr "t")) = true ∧
      guessLetter demoGameAfterT "t" =
        (demoGameAfterT, { correct := false, positions := [] }) :=
  ⟨by decide, by decide, by decide,
    guessLetter_repeat demoGameAfterT "t" demoPuzzleT (by decide) (by decide) (by decide)⟩

/-- C9: a dangling puzzle-to-word reference is silently absorbed.  When
the unsolved current puzzle's `wordId` matches no `WordEntry` (for
example after the word was deleted mid-game), `guessLetter` returns the
state completely unchanged and reports `{correct: false, positions: []}`
instead of failing. -/
theorem guessLetter_dangling (s : AppStateV1) (letter : String) (p : PuzzleState)
    (hp : listGetInt s.puzzles s.currentPuzzleIndex = some p)
    (hsolved : p.solved = false)
    (hnone : s.words.find? (fun v => v.id == p.wordId) = none) :
    guessLetter s letter = (s, { correct := false, positions := [] }) := by
  rw [guessLetter, hp]
  simp only [hsolved, Bool.false_eq_true, if_false]
  by_cases hdup : (p.revealedLetters.contains (jsLowerStr letter) ||
      p.wrongLetters.contains (jsLowerStr letter)) = true
  · simp only [hdup, if_true]
  · simp only [Bool.not_eq_true] at hdup
    simp only [hdup, Bool.false_eq_true, if_false, hnone]

/-- `demoGame` after deleting the word the current puzzle points at. -/
def demoDangling : AppStateV1 := deleteWord demoGame "w1"

/-- Witness for C9's theorem: guessing after the current word was
deleted. -/
theorem guessLetter_dangling_witness :
    listGetInt demoDangling.puzzles demoDangling.currentPuzzleIndex =
        some demoPuzzle ∧
      demoPuzzle.solved = false ∧
      demoDangling.words.find? (fun v => v.id == demoPuzzle.wordId) = none ∧
      guessLetter demoDangling "x" =
        (demoDangling, { correct := false, positions := [] }) :=
  ⟨by decide, by decide, by decide,
    guessLetter_dangling demoDangling "x" demoPuzzle (by decide) (by decide) (by decide)⟩

/-! ## C7: moving a word within its set -/

/-- C7: `moveWord` swaps `order` values with the neighbor in the word's
own set's sort-by-`order` sequence.  At a boundary (topmost word moved
up, bottommost moved down) the state is returned unchanged; otherwise
exactly the two `order` values are exchanged via a map that leaves every
other word, every other field of the two affected words, and every other
state field untouched. -/
theorem moveWord_spec (s : AppStateV1) (wid : String) (dir : Direction)
    (w : WordEntry) (sorted : List WordEntry) (idx : Nat)
    (hfind : s.words.find? (fun v => v.id == wid) = some w)
    (hsorted : sortByOrder (s.words.filter (fun v => v.setId == w.setId)) = sorted)
    (hidx : sorted.findIdx? (fun v => v.id == wid) = some idx) :
    ((dir = Direction.up ∧ idx = 0) → moveWord s wid dir = s) ∧
    ((dir = Direction.down ∧ sorted.length ≤ idx + 1) → moveWord s wid dir = s) ∧
    (∀ cur nb, sorted[idx]? = some cur →
      ((dir = Direction.up ∧ idx ≠ 0 ∧ sorted[idx - 1]? = some nb) ∨
        (dir = Direction.down ∧ sorted[idx + 1]? = some nb)) →
      moveWord s wid dir = { s with words := (s.words.map (fun v =>
        if v.id == wid then { v with order := nb.order }
        else if v.id == nb.id then { v with order := cur.order }
        else v)) }) := by
  refine ⟨?_, ?_, ?_⟩
  · rintro ⟨hdir, hzero⟩
    rw [moveWord, hfind]
    simp only [hsorted, hidx]
    rw [if_pos ⟨hdir, hzero⟩]
  · rintro ⟨hdir, hlen⟩
    rw [moveWord, hfind]
    simp only [hsorted, hidx, hdir]
    have hcond : ¬(Direction.down = Direction.up ∧ idx = 0) := by
      rintro ⟨hd, -⟩
      exact absurd hd (by simp)
    rw [if_neg hcond]
    have hnone : sorted[idx + 1]? = none := List.getElem?_eq_none hlen
    simp only [hnone]
    cases sorted[idx]? <;> rfl
  · rintro cur nb hcur (⟨hdir, hne0, hnb⟩ | ⟨hdir, hnb⟩)
    · rw [moveWord, hfind]
      simp only [hsorted, hidx, hdir]
      rw [if_neg (show ¬(True ∧ idx = 0) by simp [hne0])]
      simp only [hcur, hnb]
    · rw [moveWord, hfind]
      simp only [hsorted, hidx, hdir]
      have hcond : ¬(Direction.down = Direction.up ∧ idx = 0) := by
        rintro ⟨hd, -⟩
        exact absurd hd (by simp)
      rw [if_neg hcond]
      simp only [hcur, hnb]

/-- Witness for C7's theorem: moving `"w1"` down past `"w2"` swaps their
`order` values. -/
theorem moveWord_spec_witness :
    demoBase.words.find? (fun v => v.id == "w1") = some demoWord1 ∧
      sortByOrder (demoBase.words.filter (fun v => v.setId == demoWord1.setId)) =
        [demoWord1, demoWord2] ∧
      ([demoWord1, demoWord2].findIdx? (fun v => v.id == "w1")) = some 0 ∧
      moveWord demoBase "w1" Direction.down =
        { demoBase with
          words := [{ demoWord1 with order := 2 }, { demoWord2 with order := 1 }] } := by
  refine ⟨by decide, by decide, by decide, ?_⟩
  have h := (moveWord_spec demoBase "w1" Direction.down demoWord1
    [demoWord1, demoWord2] 0 (by decide) (by decide) (by decide)).2.2
    demoWord1 demoWord2 (by decide) (Or.inr ⟨rfl, by decide⟩)
  rw [h]
  decide

/-! ## C8: creating a set -/

/-- A state with an existing set but no active selection, as the
migration can produce. -/
def noActiveState : AppStateV1 := { defaultState with sets := [demoSet] }

/-- C8 counterexample: whether the new set becomes active is keyed on
`activeSetId` being unset, not on `sets` being empty.  With empty `sets`
but a (dangling) `activeSetId`, the new set does not become active; with
non-empty `sets` but no `activeSetId`, the new set does become active,
changing `activeSetId`. -/
theorem createSet_firstSet_false :
    (ghostActiveState.sets = [] ∧
      (createSet ghostActiveState "New" "s9" 0).activeSetId = some "ghost") ∧
    (noActiveState.sets ≠ [] ∧
      (createSet noActiveState "New" "s9" 0).activeSetId ≠ noActiveState.activeSetId) := by
  decide

/-- C8 (amended): `createSet` appends a new `QuestionSet` with the given
name, and the new set becomes the active set exactly when `activeSetId`
was unset before the call; when `activeSetId` was already set it is
unchanged.  All other state fields are untouched. -/
theorem createSet_spec (s : AppStateV1) (name sid : String) (now : Int) :
    (createSet s name sid now).sets =
        s.sets ++ [{ id := sid, name := name, createdAt := now }] ∧
    (createSet s name sid now).activeSetId =
        (match s.activeSetId with
          | none => some sid
          | some a => some a) ∧
    (createSet s name sid now).players = s.players ∧
    (createSet s name sid now).words = s.words ∧
    (createSet s name sid now).gameStatus = s.gameStatus ∧
    (createSet s name sid now).currentPuzzleIndex = s.currentPuzzleIndex ∧
    (createSet s name sid now).puzzles = s.puzzles := by
  refine ⟨rfl, ?_, rfl, rfl, rfl, rfl, rfl⟩
  show some (s.activeSetId.getD sid) =
    (match s.activeSetId with
      | none => some sid
      | some a => some a)
  cases s.activeSetId <;> rfl

/-! ## C10: restarting a game from `playing` -/

/-- C10: `startGame` does not check `gameStatus`.  From a state already
`playing`, starting a game on a set with at least one word discards all
current puzzle progress, rebuilds fresh `PuzzleState`s (empty letter
sets, unsolved) for that set's words sorted by `order`, resets
`currentPuzzleIndex` to 0, points `activeSetId` at the set and stays
`playing` — a restart rather than a no-op. -/
theorem startGame_restarts (s : AppStateV1) (setId : String) (ws : List WordEntry)
    (_hplaying : s.gameStatus = GameStatus.playing)
    (hws : sortByOrder (s.words.filter (fun w => w.setId == setId)) = ws)
    (hne : ws ≠ []) :
    startGame s setId =
      { s with
        activeSetId := some setId
        gameStatus := GameStatus.playing
        currentPuzzleIndex := 0
        puzzles := ws.map freshPuzzle } := by
  rcases hcons : ws with - | ⟨w, rest⟩
  · exact absurd hcons hne
  · rw [hcons] at hws
    rw [startGame]
    simp only [hws]

/-- Witness for C10's theorem: restarting mid-game discards the revealed
letter and rebuilds fresh puzzles. -/
theorem startGame_restarts_witness :
    demoGameAfterT.gameStatus = GameStatus.playing ∧
      sortByOrder (demoGameAfterT.words.filter (fun w => w.setId == "s1")) =
        [demoWord1, demoWord2] ∧
      ([demoWord1, demoWord2] ≠ ([] : List WordEntry)) ∧
      startGame demoGameAfterT "s1" =
        { demoGameAfterT with
          activeSetId := some "s1"
          gameStatus := GameStatus.playing
          currentPuzzleIndex := 0
          puzzles := [demoWord1, demoWord2].map freshPuzzle } :=
  ⟨by decide, by decide, by decide,
    startGame_restarts demoGameAfterT "s1" [demoWord1, demoWord2] (by decide)
      (by decide) (by decide)⟩

/-- C2: the Migration Contract is idempotent.  For every persisted input
(absent, legacy-shaped, or current-shaped) and any fresh ids/timestamps
the two runs may draw, re-running the migration on the serialized output
of a first run reproduces that output exactly:
`migrate(migrate(x)) = migrate(x)`. -/
theorem migrateToV1_idempotent (raw : Option RawState) (g1 g2 : String) (n1 n2 : Int) :
    migrateToV1 g2 n2 (some (toRawState (migrateToV1 g1 n1 raw))) =
      migrateToV1 g1 n1 raw :=
  migrateToV1_toRawState g2 n2 _ (fun hs => migrateToV1_sets_nil g1 n1 raw hs)

end Wof
